import Mathlib

/-!
Verification development for the safepath routing core.

The definitions below are a shallow embedding of the Python sources:
`safety_model.py` (safety score field), `osmnx_routing.py` (annotation and
routing), and `app.py` (graph cache / `init_road_graph`).  Machine floats are
modelled as exact rationals where the code only does field arithmetic, and as
real numbers where trigonometric functions (the haversine distance) appear.
Fallible code (Python exceptions) is modelled with `Except`/`Option`.
-/

namespace SafePath

/-! ## Safety score field (`safety_model.py`) -/

/-- Error taxonomy of the safety model queries: `RuntimeError("Call
compute_scores() first")` is `notReady`; the out-of-range/iloc failure on an
empty analysis-point table is `noData`. -/
inductive SafetyErr where
  | notReady : SafetyErr
  | noData : SafetyErr
deriving DecidableEq, Repr

/-- The weight mapping passed to `SafetyModel.compute_scores`. -/
structure Weights where
  streetlight : ℚ
  police : ℚ
  station : ℚ
  nightlife : ℚ
deriving DecidableEq, Repr

/-- The default weights of `SafetyModel.compute_scores`. -/
def defaultWeights : Weights := ⟨1, 3/2, 1/2, -(7/10)⟩

/-- Which optional feature columns exist in the loaded CSV.  `safe_get`
returns a constant `0.0` series for an absent column; a present column may
still contain NaN cells (modelled as `none`). -/
structure ColPresence where
  dl : Bool
  cl : Bool
  dp : Bool
  cp : Bool
  ds : Bool
  cs : Bool
deriving DecidableEq, Repr

/-- One row of the merged feature CSV (one `AnalysisPoint`).  A cell is
`none` when the stored value is NaN.  `nightlife` holds the cells of every
`count_`-prefixed column other than the three known count columns. -/
structure Row where
  longitude : ℚ
  latitude : ℚ
  dl : Option ℚ
  cl : Option ℚ
  dp : Option ℚ
  cp : Option ℚ
  ds : Option ℚ
  cs : Option ℚ
  nightlife : List (Option ℚ)
deriving DecidableEq, Repr

/-- Value of a distance cell as seen by `compute_scores`:
`safe_get(col)` (absent column becomes the constant `0.0` series)
followed by `.fillna(9999.0)`. -/
def distVal (present : Bool) (cell : Option ℚ) : ℚ :=
  if present then cell.getD 9999 else 0

/-- Value of a count cell as seen by `compute_scores`:
`safe_get(col)` followed by `.fillna(0)`. -/
def countVal (present : Bool) (cell : Option ℚ) : ℚ :=
  if present then cell.getD 0 else 0

/-- `df[nightlife_cols].sum(axis=1)`: pandas row sum skipping NaN;
the empty column list gives the constant `0` series. -/
def nightlifeSum (cells : List (Option ℚ)) : ℚ :=
  (cells.map (fun c => c.getD 0)).sum

/-- `comp_light = (1.0 / (1.0 + dist_light)) + (count_light * 0.01)`. -/
def compLight (p : ColPresence) (r : Row) : ℚ :=
  1 / (1 + distVal p.dl r.dl) + countVal p.cl r.cl * (1/100)

/-- `comp_police = (1.0 / (1.0 + dist_police)) + (count_police * 0.1)`. -/
def compPolice (p : ColPresence) (r : Row) : ℚ :=
  1 / (1 + distVal p.dp r.dp) + countVal p.cp r.cp * (1/10)

/-- `comp_station = (1.0 / (1.0 + dist_station)) + (count_station * 0.02)`. -/
def compStation (p : ColPresence) (r : Row) : ℚ :=
  1 / (1 + distVal p.ds r.ds) + countVal p.cs r.cs * (1/50)

/-- `raw_score`, the weighted sum of the four components. -/
def rawScore (w : Weights) (p : ColPresence) (r : Row) : ℚ :=
  w.streetlight * compLight p r + w.police * compPolice p r
    + w.station * compStation p r + w.nightlife * nightlifeSum r.nightlife

/-- `raw_score.min()` (pandas series minimum; `none` on an empty series). -/
def seriesMin (l : List ℚ) : Option ℚ :=
  match l with
  | [] => none
  | x :: xs => some (xs.foldl min x)

/-- `raw_score.max()` (pandas series maximum; `none` on an empty series). -/
def seriesMax (l : List ℚ) : Option ℚ :=
  match l with
  | [] => none
  | x :: xs => some (xs.foldl max x)

/-- The normalization step of `compute_scores`:
`if maxv - minv <= 0: norm = ones  else: norm = (raw - minv) / (maxv - minv)`.
On an empty series, both branches produce the empty series. -/
def minmaxNorm (raw : List ℚ) : List ℚ :=
  match seriesMin raw, seriesMax raw with
  | some mn, some mx =>
      if mx - mn ≤ 0 then raw.map (fun _ => 1)
      else raw.map (fun r => (r - mn) / (mx - mn))
  | _, _ => []

/-- `SafetyModel.compute_scores`: per-row raw scores, min-max normalized. -/
def computeScoresList (w : Weights) (p : ColPresence) (rows : List Row) : List ℚ :=
  minmaxNorm (rows.map (rawScore w p))

/-- Restatement of the spec's description of a distance feature: every
missing value (a NaN cell, or every cell of an absent column) defaults to
the large distance `9999`. -/
def specDistVal (present : Bool) (cell : Option ℚ) : ℚ :=
  if present then cell.getD 9999 else 9999

/-- Restatement of the spec's description of a count feature: every missing
value defaults to `0`.  This coincides with the code's `countVal`. -/
def specCountVal (present : Bool) (cell : Option ℚ) : ℚ :=
  if present then cell.getD 0 else 0

/-- The claim's per-point raw score: the stated component formulas with
missing values defaulting to distance 9999 and count 0, combined as the
weighted sum (nightlife component is the sum of nightlife-category counts). -/
def specRawScore (w : Weights) (p : ColPresence) (r : Row) : ℚ :=
  w.streetlight * (1 / (1 + specDistVal p.dl r.dl) + specCountVal p.cl r.cl * (1/100))
    + w.police * (1 / (1 + specDistVal p.dp r.dp) + specCountVal p.cp r.cp * (1/10))
    + w.station * (1 / (1 + specDistVal p.ds r.ds) + specCountVal p.cs r.cs * (1/50))
    + w.nightlife * nightlifeSum r.nightlife

/-- The claim's described result: spec raw scores, min-max normalized with
the all-equal case mapped to all ones (`minmaxNorm` implements exactly the
stated policy). -/
def specScoresList (w : Weights) (p : ColPresence) (rows : List Row) : List ℚ :=
  minmaxNorm (rows.map (specRawScore w p))

/-- The constant offset between the claim's raw score and the code's raw
score: it comes only from distance columns that are absent from the CSV,
where the code's `safe_get` default is the distance `0`, not `9999`. -/
def shiftC (w : Weights) (p : ColPresence) : ℚ :=
  w.streetlight * (if p.dl then 0 else 1/10000 - 1)
    + w.police * (if p.dp then 0 else 1/10000 - 1)
    + w.station * (if p.ds then 0 else 1/10000 - 1)

/-- The state of a `SafetyModel` instance: the loaded rows, which optional
columns the CSV had, and `self.scores` (`none` until `compute_scores` ran). -/
structure SafetyModel where
  rows : List Row
  pres : ColPresence
  scores : Option (List ℚ)

/-- `SafetyModel.compute_scores` as a state transformer: stores the
normalized score series in `self.scores`. -/
def SafetyModel.compute_scores (m : SafetyModel) (w : Weights) : SafetyModel :=
  { m with scores := some (computeScoresList w m.pres m.rows) }

/-- Squared planar distance on raw lon/lat degrees: the KD-tree metric. -/
def sqDist (lon1 lat1 lon2 lat2 : ℚ) : ℚ :=
  (lon1 - lon2) * (lon1 - lon2) + (lat1 - lat2) * (lat1 - lat2)

/-- `self._tree.query([lon, lat], k=1)`: index of the analysis point nearest
to the query (first index on ties); `none` when the point set is empty. -/
def nearestIdx (rows : List Row) (lon lat : ℚ) : Option Nat :=
  match rows with
  | [] => none
  | r0 :: rest =>
      some (((rest.enumFrom 1).foldl
        (fun best cand =>
          if sqDist cand.2.longitude cand.2.latitude lon lat < best.2
          then (cand.1, sqDist cand.2.longitude cand.2.latitude lon lat)
          else best)
        (0, sqDist r0.longitude r0.latitude lon lat)).1)

/-- `SafetyModel.score_location`: raises `notReady` before `compute_scores`;
the KD-tree/`iloc` lookup on an empty table fails (`noData`); otherwise the
nearest point's stored score is returned. -/
def SafetyModel.score_location (m : SafetyModel) (lon lat : ℚ) : Except SafetyErr ℚ :=
  match m.scores with
  | none => .error .notReady
  | some sc =>
      match nearestIdx m.rows lon lat with
      | none => .error .noData
      | some i =>
          match sc.get? i with
          | none => .error .noData
          | some s => .ok s

/-! ## Network annotator and route planner (`osmnx_routing.py`) -/

/-- `math.radians`. -/
noncomputable def radians (d : ℝ) : ℝ := d * Real.pi / 180

/-- `math.atan2(y, x)`: the angle of the point `(x, y)`, by quadrant. -/
noncomputable def atan2 (y x : ℝ) : ℝ :=
  if 0 < x then Real.arctan (y / x)
  else if x < 0 then
    (if 0 ≤ y then Real.arctan (y / x) + Real.pi else Real.arctan (y / x) - Real.pi)
  else
    (if 0 < y then Real.pi / 2 else if y < 0 then -(Real.pi / 2) else 0)

/-- The intermediate value `a` of `haversine_meters`:
`sin(dphi/2)**2 + cos(phi1)*cos(phi2)*sin(dlambda/2)**2`. -/
noncomputable def haversineA (lon1 lat1 lon2 lat2 : ℝ) : ℝ :=
  Real.sin (radians (lat2 - lat1) / 2) ^ 2
    + Real.cos (radians lat1) * Real.cos (radians lat2)
      * Real.sin (radians (lon2 - lon1) / 2) ^ 2

/-- `haversine_meters` from `safety_model.py`: great-circle distance in
meters between two lon/lat points on a sphere of radius 6371000 m,
`R * 2 * atan2(sqrt(a), sqrt(1 - a))`. -/
noncomputable def haversine_meters (lon1 lat1 lon2 lat2 : ℝ) : ℝ :=
  6371000 * 2 * atan2 (Real.sqrt (haversineA lon1 lat1 lon2 lat2))
    (Real.sqrt (1 - haversineA lon1 lat1 lon2 lat2))

/-- Attributes of a road-graph node.  OSMnx stores coordinates in `x` (lon)
and `y` (lat); the routing output additionally falls back to `lon`/`lat`
attributes when `x`/`y` are absent. -/
structure NodeAttrs where
  x : Option ℚ
  y : Option ℚ
  lon : Option ℚ
  lat : Option ℚ
deriving DecidableEq, Repr

/-- Attributes of a road-graph edge: the provider-supplied `length` (meters)
and the `safety`/`safety_cost` attributes written by the annotator (absent
until annotation runs). -/
structure EdgeData where
  length : Option ℝ
  safety : Option ℝ
  safety_cost : Option ℝ

/-- One directed edge of a `MultiDiGraph`: endpoints, parallel-edge key,
and its attribute dictionary. -/
structure Edge where
  u : Nat
  v : Nat
  key : Nat
  data : EdgeData

/-- A road network graph (`networkx.MultiDiGraph`): node list with
attributes, and a directed multi-edge list. -/
structure Graph where
  nodes : List (Nat × NodeAttrs)
  edges : List Edge

/-- `G.nodes[n]`: attribute lookup for a node id (missing attributes are
`none`, matching `G.nodes[u].get("x")`). -/
def nodeAttrsOf (G : Graph) (n : Nat) : NodeAttrs :=
  match G.nodes.find? (fun p => p.1 == n) with
  | some p => p.2
  | none => ⟨none, none, none, none⟩

/-- The per-edge body of `annotate_graph_with_safety`: for an edge with both
endpoint coordinates present, sample the safety model at the edge midpoint
and set `safety_cost = haversine_length / (score + eps)`; otherwise recover
in place with a neutral score `0.5` and `length_m = data.get("length", 1.0)`.
The safety model's `score_location` method is passed as the function `sm`
(it can fail, e.g. with `notReady`). -/
noncomputable def annEdge (G : Graph) (sm : ℚ → ℚ → Except SafetyErr ℚ)
    (eps : ℝ) (e : Edge) : Except SafetyErr Edge :=
  match (nodeAttrsOf G e.u).x, (nodeAttrsOf G e.u).y,
      (nodeAttrsOf G e.v).x, (nodeAttrsOf G e.v).y with
  | some lon_u, some lat_u, some lon_v, some lat_v =>
      match sm ((lon_u + lon_v) / 2) ((lat_u + lat_v) / 2) with
      | .error err => .error err
      | .ok score =>
          .ok ⟨e.u, e.v, e.key,
            ⟨e.data.length, some ↑score,
              some (haversine_meters ↑lon_u ↑lat_u ↑lon_v ↑lat_v / (↑score + eps))⟩⟩
  | _, _, _, _ =>
      .ok ⟨e.u, e.v, e.key,
        ⟨e.data.length, some (1/2),
          some ((e.data.length.getD 1) / (1/2 + eps))⟩⟩

/-- The edge loop of `annotate_graph_with_safety`; an exception raised while
scoring an edge aborts the whole pass. -/
noncomputable def annotateEdges (G : Graph) (sm : ℚ → ℚ → Except SafetyErr ℚ)
    (eps : ℝ) : List Edge → Except SafetyErr (List Edge)
  | [] => .ok []
  | e :: es =>
      match annEdge G sm eps e with
      | .error err => .error err
      | .ok e' =>
          match annotateEdges G sm eps es with
          | .error err => .error err
          | .ok es' => .ok (e' :: es')

/-- `annotate_graph_with_safety(G, sm, eps=1e-6)`: assign `safety` and
`safety_cost` to every edge. -/
noncomputable def annotate_graph_with_safety (G : Graph)
    (sm : ℚ → ℚ → Except SafetyErr ℚ) (eps : ℝ) : Except SafetyErr Graph :=
  match annotateEdges G sm eps G.edges with
  | .error err => .error err
  | .ok es => .ok ⟨G.nodes, es⟩

/-- `ox.distance.nearest_nodes(G, x, y)`: snap a lon/lat query to the id of
the nearest graph node by planar distance on the node `x`/`y` attributes
(first node on ties); `none` on an empty graph, where the library call
raises. -/
def nearest_node (G : Graph) (lon lat : ℚ) : Option Nat :=
  match G.nodes with
  | [] => none
  | n0 :: rest =>
      some ((rest.foldl
        (fun best cand =>
          if sqDist (cand.2.x.getD 0) (cand.2.y.getD 0) lon lat < best.2
          then (cand.1, sqDist (cand.2.x.getD 0) (cand.2.y.getD 0) lon lat)
          else best)
        (n0.1, sqDist (n0.2.x.getD 0) (n0.2.y.getD 0) lon lat)).1)

/-- Directed successor list of a node in the multigraph (each successor
once, in first-edge order), as iterated by the shortest-path search. -/
def adjOf (G : Graph) (u : Nat) : List Nat :=
  ((G.edges.filter (fun e => e.u == u)).map (fun e => e.v)).foldl
    (fun acc v => if v ∈ acc then acc else acc ++ [v]) []

/-- All simple paths from `cur` to `tgt` (DFS with an explicit fuel bound
and visited list); the search space of the shortest-path routine. -/
def simplePathsAux (adj : Nat → List Nat) : Nat → Nat → Nat → List Nat → List (List Nat)
  | fuel, cur, tgt, visited =>
    if cur = tgt then [[cur]]
    else
      match fuel with
      | 0 => []
      | Nat.succ fuel1 =>
          ((adj cur).filter (fun n => !((cur :: visited).contains n))).flatMap
            (fun n => (simplePathsAux adj fuel1 n tgt (cur :: visited)).map
              (fun p => cur :: p))

/-- The networkx weight of the step `u → v`: the minimum of the selected
weight attribute over the parallel edges from `u` to `v` (a missing weight
attribute counts as 1). -/
noncomputable def edgeWeight (G : Graph) (wf : EdgeData → ℝ) (u v : Nat) : ℝ :=
  match (G.edges.filter (fun e => e.u == u && e.v == v)).map (fun e => wf e.data) with
  | [] => 0
  | c :: cs => cs.foldl min c

/-- Total weight of a node path: sum of consecutive step weights. -/
noncomputable def pathWeight (G : Graph) (wf : EdgeData → ℝ) : List Nat → ℝ
  | u :: v :: rest => edgeWeight G wf u v + pathWeight G wf (v :: rest)
  | _ => 0

/-- Deterministic selection of a minimum-weight candidate (first wins on
ties). -/
noncomputable def argminPath (w : List Nat → ℝ) : List (List Nat) → Option (List Nat)
  | [] => none
  | p :: ps => some (ps.foldl (fun best q => if w q < w best then q else best) p)

/-- `nx.shortest_path(G, source, target, weight=...)` modelled by its
contract: a deterministic minimum-weight path among the simple paths from
source to target under the chosen edge-weight function, or `none`
(`NetworkXNoPath`) when target is unreachable. -/
noncomputable def shortestPathBy (G : Graph) (wf : EdgeData → ℝ) (s t : Nat) :
    Option (List Nat) :=
  argminPath (pathWeight G wf) (simplePathsAux (adjOf G) G.nodes.length s t [])

/-- `node.get("x") if node.get("x") is not None else node.get("lon")`. -/
def pickCoord (a b : Option ℚ) : Option ℚ :=
  match a with
  | some v => some v
  | none => b

/-- The output coordinate of a path node: `x`/`y` with `lon`/`lat`
fallback; `none` models the `float(None)` TypeError when both are absent. -/
def coordOf (G : Graph) (n : Nat) : Option (ℚ × ℚ) :=
  match pickCoord (nodeAttrsOf G n).x (nodeAttrsOf G n).lon,
      pickCoord (nodeAttrsOf G n).y (nodeAttrsOf G n).lat with
  | some lon, some lat => some (lon, lat)
  | _, _ => none

/-- The output loop of `safest_route_on_graph`: the coordinate of every
path node, in traversal order. -/
def pathCoords (G : Graph) : List Nat → Option (List (ℚ × ℚ))
  | [] => some []
  | n :: ns =>
      match coordOf G n, pathCoords G ns with
      | some c, some cs => some (c :: cs)
      | _, _ => none

/-- `safest_route_on_graph(G, origin, destination)`: snap both endpoints,
search a shortest path under the `safety_cost` weight, return the node
coordinates in traversal order; `NetworkXNoPath` is caught and returned as
the empty list. -/
noncomputable def safest_route_on_graph (G : Graph) (origin destination : ℚ × ℚ) :
    Option (List (ℚ × ℚ)) :=
  match nearest_node G origin.1 origin.2, nearest_node G destination.1 destination.2 with
  | some orig_node, some dest_node =>
      match shortestPathBy G (fun dt => dt.safety_cost.getD 1) orig_node dest_node with
      | none => some []
      | some path => pathCoords G path
  | _, _ => none

/-- Modelled from the spec: `fastest_route_on_graph` is imported by `app.py`
from `osmnx_routing` but its definition is missing from the source tree;
per the spec's MINIMIZE_LENGTH mode it performs the same snapping and
shortest-path search using each edge's raw physical `length` attribute as
the weight. -/
noncomputable def fastest_route_on_graph (G : Graph) (origin destination : ℚ × ℚ) :
    Option (List (ℚ × ℚ)) :=
  match nearest_node G origin.1 origin.2, nearest_node G destination.1 destination.2 with
  | some orig_node, some dest_node =>
      match shortestPathBy G (fun dt => dt.length.getD 1) orig_node dest_node with
      | none => some []
      | some path => pathCoords G path
  | _, _ => none

/-- A directed walk from `s` to `t` along the successor relation: the
meaning of "`t` is reachable from `s`" (its negation is "disconnected"). -/
def IsWalk (adj : Nat → List Nat) (s t : Nat) (p : List Nat) : Prop :=
  p.Chain' (fun a b => b ∈ adj a) ∧ p.head? = some s ∧ p.getLast? = some t

/-- A concrete equatorial road graph: nodes 1, 2, 3 at longitudes 0, 3, 2
on the equator; a direct edge `1 → 3` with provider length 100 and a detour
`1 → 2 → 3` with provider lengths 10 + 10 (deliberately unrelated to the
haversine geometry). -/
def cexGraph : Graph :=
  ⟨[(1, ⟨some 0, some 0, none, none⟩), (2, ⟨some 3, some 0, none, none⟩),
    (3, ⟨some 2, some 0, none, none⟩)],
   [⟨1, 3, 0, ⟨some 100, none, none⟩⟩, ⟨1, 2, 0, ⟨some 10, none, none⟩⟩,
    ⟨2, 3, 0, ⟨some 10, none, none⟩⟩]⟩

/-- `cexGraph` after annotation with the uniform safety model
`fun _ _ => ok (1/2)` and `eps = 1e-6` (every edge carries the same safety
score 0.5). -/
noncomputable def cexAnnotated : Graph :=
  ⟨[(1, ⟨some 0, some 0, none, none⟩), (2, ⟨some 3, some 0, none, none⟩),
    (3, ⟨some 2, some 0, none, none⟩)],
   [⟨1, 3, 0, ⟨some 100, some ((1/2 : ℚ) : ℝ),
      some (haversine_meters ((0:ℚ):ℝ) ((0:ℚ):ℝ) ((2:ℚ):ℝ) ((0:ℚ):ℝ)
        / (((1/2 : ℚ) : ℝ) + 1/1000000))⟩⟩,
    ⟨1, 2, 0, ⟨some 10, some ((1/2 : ℚ) : ℝ),
      some (haversine_meters ((0:ℚ):ℝ) ((0:ℚ):ℝ) ((3:ℚ):ℝ) ((0:ℚ):ℝ)
        / (((1/2 : ℚ) : ℝ) + 1/1000000))⟩⟩,
    ⟨2, 3, 0, ⟨some 10, some ((1/2 : ℚ) : ℝ),
      some (haversine_meters ((3:ℚ):ℝ) ((0:ℚ):ℝ) ((2:ℚ):ℝ) ((0:ℚ):ℝ)
        / (((1/2 : ℚ) : ℝ) + 1/1000000))⟩⟩]⟩

/-! ## Graph cache (`app.py`, `init_road_graph`) -/

/-- The process-wide mutable routing state of `app.py`: the globals
`road_graph` and `graph_bounds` (a `(north, south, east, west)` box). -/
structure AppState where
  road_graph : Option Graph
  graph_bounds : Option (ℚ × ℚ × ℚ × ℚ)

/-- The on-disk pickle cache `cached_road_graph.pkl`: missing file, a file
whose load raises (caught and ignored), or a loadable `{graph, bounds}`
bundle. -/
inductive DiskCache where
  | absent : DiskCache
  | corrupt : DiskCache
  | present : Graph → ℚ × ℚ × ℚ × ℚ → DiskCache

/-- Failures surfaced by a graph build: the Network Provider download
failed, or scoring during annotation failed. -/
inductive RouteErr where
  | providerUnavailable : RouteErr
  | scoringFailure : SafetyErr → RouteErr
deriving DecidableEq, Repr

/-- The bbox shrink of `init_road_graph`: the span is reduced to 50% of the
request (`lat_range = (north - south) * 0.5`, etc.) around the request's
own center. -/
def reduce_box (north south east west : ℚ) : ℚ × ℚ × ℚ × ℚ :=
  ((north + south) / 2 + (north - south) * (1/2) / 2,
   (north + south) / 2 - (north - south) * (1/2) / 2,
   (east + west) / 2 + (east - west) * (1/2) / 2,
   (east + west) / 2 - (east - west) * (1/2) / 2)

/-- The fresh-build tail of `init_road_graph`: download the shrunk box from
the provider, annotate, and only then overwrite the globals, recording the
originally requested bounds.  A raised exception (provider or annotation)
propagates and leaves the state untouched.  The returned `Bool` records
whether the Network Provider was called. -/
noncomputable def build_fresh (st : AppState)
    (provider : ℚ × ℚ × ℚ × ℚ → Except Unit Graph)
    (sm : ℚ → ℚ → Except SafetyErr ℚ) (north south east west : ℚ) :
    Except RouteErr Graph × AppState × Bool :=
  match provider (reduce_box north south east west) with
  | .error _ => (.error .providerUnavailable, st, true)
  | .ok G0 =>
      match annotate_graph_with_safety G0 sm (1/1000000) with
      | .error err => (.error (.scoringFailure err), st, true)
      | .ok G1 => (.ok G1, ⟨some G1, some (north, south, east, west)⟩, true)

/-- `init_road_graph(north, south, east, west, force_reload)` from `app.py`:
disk-cache restore when no graph is loaded yet, then the lenient 0.01-degree
containment check against the cached bounds, else a fresh build. -/
noncomputable def init_road_graph (st : AppState) (disk : DiskCache)
    (provider : ℚ × ℚ × ℚ × ℚ → Except Unit Graph)
    (sm : ℚ → ℚ → Except SafetyErr ℚ) (force_reload : Bool)
    (north south east west : ℚ) : Except RouteErr Graph × AppState × Bool :=
  match force_reload, st.road_graph, disk with
  | false, none, .present g b => (.ok g, ⟨some g, some b⟩, false)
  | _, _, _ =>
      match force_reload, st.road_graph, st.graph_bounds with
      | false, some g, some (gn, gs, ge, gw) =>
          if north ≤ gn + 1/100 ∧ south ≥ gs - 1/100
              ∧ east ≤ ge + 1/100 ∧ west ≥ gw - 1/100
          then (.ok g, st, false)
          else build_fresh st provider sm north south east west
      | _, _, _ => build_fresh st provider sm north south east west

/-! ## Supporting lemmas -/

lemma foldl_min_le_init (l : List ℚ) (a : ℚ) : l.foldl min a ≤ a := by
  induction l generalizing a with
  | nil => simp
  | cons x xs ih => exact le_trans (ih (min a x)) (min_le_left a x)

lemma foldl_min_le_mem (l : List ℚ) (a x : ℚ) (h : x ∈ l) : l.foldl min a ≤ x := by
  induction l generalizing a with
  | nil => cases h
  | cons y ys ih =>
      rcases List.mem_cons.mp h with rfl | hy
      · exact le_trans (foldl_min_le_init ys (min a x)) (min_le_right a x)
      · exact ih (min a y) hy

lemma le_foldl_max_init (l : List ℚ) (a : ℚ) : a ≤ l.foldl max a := by
  induction l generalizing a with
  | nil => simp
  | cons x xs ih => exact le_trans (le_max_left a x) (ih (max a x))

lemma le_foldl_max_mem (l : List ℚ) (a x : ℚ) (h : x ∈ l) : x ≤ l.foldl max a := by
  induction l generalizing a with
  | nil => cases h
  | cons y ys ih =>
      rcases List.mem_cons.mp h with rfl | hy
      · exact le_trans (le_max_right a x) (le_foldl_max_init ys (max a x))
      · exact ih (max a y) hy

lemma foldl_min_map_add (l : List ℚ) (a c : ℚ) :
    (l.map (· + c)).foldl min (a + c) = l.foldl min a + c := by
  induction l generalizing a with
  | nil => simp
  | cons x xs ih => simpa [min_add_add_right] using ih (min a x)

lemma foldl_max_map_add (l : List ℚ) (a c : ℚ) :
    (l.map (· + c)).foldl max (a + c) = l.foldl max a + c := by
  induction l generalizing a with
  | nil => simp
  | cons x xs ih => simpa [max_add_add_right] using ih (max a x)

lemma map_one_eq_replicate (l : List ℚ) :
    l.map (fun _ => (1 : ℚ)) = List.replicate l.length 1 := by
  induction l with
  | nil => rfl
  | cons x xs ih => simp [List.replicate_succ, ih]

lemma seriesMin_map_add (x : ℚ) (xs : List ℚ) (c : ℚ) :
    seriesMin ((x :: xs).map (· + c)) = some (xs.foldl min x + c) := by
  simp [seriesMin, foldl_min_map_add]

lemma seriesMax_map_add (x : ℚ) (xs : List ℚ) (c : ℚ) :
    seriesMax ((x :: xs).map (· + c)) = some (xs.foldl max x + c) := by
  simp [seriesMax, foldl_max_map_add]

lemma minmaxNorm_map_add (l : List ℚ) (c : ℚ) :
    minmaxNorm (l.map (· + c)) = minmaxNorm l := by
  cases l with
  | nil => rfl
  | cons x xs =>
      unfold minmaxNorm
      rw [seriesMin_map_add, seriesMax_map_add]
      show (if xs.foldl max x + c - (xs.foldl min x + c) ≤ 0
            then ((x :: xs).map (· + c)).map (fun _ => 1)
            else ((x :: xs).map (· + c)).map
              (fun r => (r - (xs.foldl min x + c)) / (xs.foldl max x + c - (xs.foldl min x + c))))
          = _
      have hsub : xs.foldl max x + c - (xs.foldl min x + c)
          = xs.foldl max x - xs.foldl min x := by ring
      rw [hsub]
      show _ = (if xs.foldl max x - xs.foldl min x ≤ 0
            then (x :: xs).map (fun _ => 1)
            else (x :: xs).map
              (fun r => (r - xs.foldl min x) / (xs.foldl max x - xs.foldl min x)))
      by_cases hle : xs.foldl max x - xs.foldl min x ≤ 0
      · rw [if_pos hle, if_pos hle, List.map_map]
        rfl
      · rw [if_neg hle, if_neg hle, List.map_map]
        refine List.map_congr_left fun r _ => ?_
        simp only [Function.comp_apply]
        congr 1
        ring

lemma minmaxNorm_all_one (l : List ℚ) (mn mx : ℚ) (hmn : seriesMin l = some mn)
    (hmx : seriesMax l = some mx) (heq : mx = mn) :
    minmaxNorm l = List.replicate l.length 1 := by
  unfold minmaxNorm
  rw [hmn, hmx]
  have h : (if mx - mn ≤ 0 then l.map (fun _ => (1 : ℚ))
      else l.map fun r => (r - mn) / (mx - mn)) = List.replicate l.length 1 := by
    rw [if_pos (by rw [heq]; linarith), map_one_eq_replicate]
  exact h

lemma minmaxNorm_mem_unit (l : List ℚ) (s : ℚ) (h : s ∈ minmaxNorm l) :
    0 ≤ s ∧ s ≤ 1 := by
  cases l with
  | nil => simp [minmaxNorm, seriesMin] at h
  | cons x xs =>
      simp only [minmaxNorm, seriesMin, seriesMax] at h
      by_cases hle : xs.foldl max x - xs.foldl min x ≤ 0
      · rw [if_pos hle] at h
        rcases List.mem_map.mp h with ⟨r, _, rfl⟩
        norm_num
      · rw [if_neg hle] at h
        rcases List.mem_map.mp h with ⟨r, hr, rfl⟩
        have hpos : 0 < xs.foldl max x - xs.foldl min x := lt_of_not_le hle
        have hmn : xs.foldl min x ≤ r := by
          rcases List.mem_cons.mp hr with rfl | hr'
          · exact foldl_min_le_init xs r
          · exact foldl_min_le_mem xs x r hr'
        have hmx : r ≤ xs.foldl max x := by
          rcases List.mem_cons.mp hr with rfl | hr'
          · exact le_foldl_max_init xs r
          · exact le_foldl_max_mem xs x r hr'
        constructor
        · exact div_nonneg (by linarith) (le_of_lt hpos)
        · rw [div_le_one hpos]; linarith

lemma arctan_nonneg_of_nonneg (x : ℝ) (h : 0 ≤ x) : 0 ≤ Real.arctan x := by
  have := Real.arctan_strictMono.monotone h
  rwa [Real.arctan_zero] at this

lemma atan2_zero_pos (x : ℝ) (hx : 0 < x) : atan2 0 x = 0 := by
  unfold atan2
  rw [if_pos hx, zero_div, Real.arctan_zero]

lemma atan2_nonneg (y x : ℝ) (hy : 0 ≤ y) (hx : 0 ≤ x) : 0 ≤ atan2 y x := by
  unfold atan2
  rcases lt_or_eq_of_le hx with hx' | hx'
  · rw [if_pos hx']
    exact arctan_nonneg_of_nonneg _ (div_nonneg hy hx'.le)
  · rw [if_neg (by rw [← hx']; exact lt_irrefl 0),
      if_neg (by rw [← hx']; exact lt_irrefl 0)]
    by_cases hy' : 0 < y
    · rw [if_pos hy']
      positivity
    · rw [if_neg hy', if_neg (by linarith)]

lemma radians_zero : radians 0 = 0 := by
  simp [radians]

lemma haversineA_self (lon lat : ℝ) : haversineA lon lat lon lat = 0 := by
  unfold haversineA
  rw [sub_self, sub_self, radians_zero]
  norm_num

lemma haversine_self (lon lat : ℝ) : haversine_meters lon lat lon lat = 0 := by
  unfold haversine_meters
  rw [haversineA_self, Real.sqrt_zero, sub_zero, Real.sqrt_one,
    atan2_zero_pos 1 one_pos, mul_zero]

lemma haversine_nonneg (lon1 lat1 lon2 lat2 : ℝ) :
    0 ≤ haversine_meters lon1 lat1 lon2 lat2 := by
  unfold haversine_meters
  exact mul_nonneg (by norm_num)
    (atan2_nonneg _ _ (Real.sqrt_nonneg _) (Real.sqrt_nonneg _))

lemma haversineA_equator (a b : ℝ) :
    haversineA a 0 b 0 = Real.sin ((b - a) * Real.pi / 360) ^ 2 := by
  unfold haversineA radians
  have h1 : ((0:ℝ) - 0) * Real.pi / 180 / 2 = 0 := by ring
  have h2 : (0:ℝ) * Real.pi / 180 = 0 := by ring
  have h3 : (b - a) * Real.pi / 180 / 2 = (b - a) * Real.pi / 360 := by ring
  rw [h1, h2, h3, Real.sin_zero, Real.cos_zero]
  ring

lemma atan2_sin_cos (t : ℝ) (h0 : 0 ≤ t) (hlt : t < Real.pi / 2) :
    atan2 (Real.sin t) (Real.cos t) = t := by
  have hpi := Real.pi_pos
  have hcos : 0 < Real.cos t :=
    Real.cos_pos_of_mem_Ioo ⟨by linarith, hlt⟩
  unfold atan2
  rw [if_pos hcos, ← Real.tan_eq_sin_div_cos,
    Real.arctan_tan (by linarith) hlt]

lemma sqrt_one_sub_sin_sq (t : ℝ) (hcos : 0 ≤ Real.cos t) :
    Real.sqrt (1 - Real.sin t ^ 2) = Real.cos t := by
  have h := Real.sin_sq_add_cos_sq t
  rw [show 1 - Real.sin t ^ 2 = Real.cos t ^ 2 by linarith, Real.sqrt_sq hcos]

/-- On the equator, the haversine distance between longitudes `a ≤ b`
(less than 180 degrees apart) is proportional to the longitude gap. -/
lemma haversine_equator (a b : ℝ) (h1 : 0 ≤ b - a) (h2 : b - a < 180) :
    haversine_meters a 0 b 0 = (b - a) * (6371000 * Real.pi / 180) := by
  have hpi := Real.pi_pos
  have ht0 : 0 ≤ (b - a) * Real.pi / 360 :=
    div_nonneg (mul_nonneg h1 hpi.le) (by norm_num)
  have htlt : (b - a) * Real.pi / 360 < Real.pi / 2 := by
    nlinarith [mul_pos (show (0:ℝ) < 180 - (b - a) by linarith) hpi]
  have hsin : 0 ≤ Real.sin ((b - a) * Real.pi / 360) :=
    Real.sin_nonneg_of_nonneg_of_le_pi ht0 (by linarith)
  have hcos : 0 < Real.cos ((b - a) * Real.pi / 360) :=
    Real.cos_pos_of_mem_Ioo ⟨by linarith, htlt⟩
  unfold haversine_meters
  rw [haversineA_equator, Real.sqrt_sq hsin, sqrt_one_sub_sin_sq _ hcos.le,
    atan2_sin_cos _ ht0 htlt]
  ring

lemma haversineA_comm (lon1 lat1 lon2 lat2 : ℝ) :
    haversineA lon2 lat2 lon1 lat1 = haversineA lon1 lat1 lon2 lat2 := by
  unfold haversineA radians
  have h1 : (lat1 - lat2) * Real.pi / 180 / 2
      = -((lat2 - lat1) * Real.pi / 180 / 2) := by ring
  have h2 : (lon1 - lon2) * Real.pi / 180 / 2
      = -((lon2 - lon1) * Real.pi / 180 / 2) := by ring
  rw [h1, h2, Real.sin_neg, Real.sin_neg]
  ring

lemma haversine_comm (lon1 lat1 lon2 lat2 : ℝ) :
    haversine_meters lon2 lat2 lon1 lat1 = haversine_meters lon1 lat1 lon2 lat2 := by
  unfold haversine_meters
  rw [haversineA_comm]

/-- Full characterization of a successful `annEdge`: identity and `length`
are preserved, and either the coordinates were all present (haversine length
over the midpoint score) or it is the malformed-edge fallback. -/
lemma annEdge_ok (G : Graph) (sm : ℚ → ℚ → Except SafetyErr ℚ) (eps : ℝ)
    (e e' : Edge) (h : annEdge G sm eps e = .ok e') :
    e'.u = e.u ∧ e'.v = e.v ∧ e'.key = e.key ∧ e'.data.length = e.data.length ∧
    ((∃ xu yu xv yv q, (nodeAttrsOf G e.u).x = some xu ∧ (nodeAttrsOf G e.u).y = some yu
        ∧ (nodeAttrsOf G e.v).x = some xv ∧ (nodeAttrsOf G e.v).y = some yv
        ∧ sm ((xu + xv) / 2) ((yu + yv) / 2) = .ok q
        ∧ e'.data.safety = some ↑q
        ∧ e'.data.safety_cost
            = some (haversine_meters ↑xu ↑yu ↑xv ↑yv / (↑q + eps)))
     ∨ (((nodeAttrsOf G e.u).x = none ∨ (nodeAttrsOf G e.u).y = none
          ∨ (nodeAttrsOf G e.v).x = none ∨ (nodeAttrsOf G e.v).y = none)
        ∧ e'.data.safety = some (1/2)
        ∧ e'.data.safety_cost = some ((e.data.length.getD 1) / (1/2 + eps)))) := by
  unfold annEdge at h
  rcases hxu : (nodeAttrsOf G e.u).x with _ | xu <;> rw [hxu] at h
  · cases h
    exact ⟨rfl, rfl, rfl, rfl, Or.inr ⟨Or.inl rfl, rfl, rfl⟩⟩
  rcases hyu : (nodeAttrsOf G e.u).y with _ | yu <;> rw [hyu] at h
  · cases h
    exact ⟨rfl, rfl, rfl, rfl, Or.inr ⟨Or.inr (Or.inl rfl), rfl, rfl⟩⟩
  rcases hxv : (nodeAttrsOf G e.v).x with _ | xv <;> rw [hxv] at h
  · cases h
    exact ⟨rfl, rfl, rfl, rfl, Or.inr ⟨Or.inr (Or.inr (Or.inl rfl)), rfl, rfl⟩⟩
  rcases hyv : (nodeAttrsOf G e.v).y with _ | yv <;> rw [hyv] at h
  · cases h
    exact ⟨rfl, rfl, rfl, rfl, Or.inr ⟨Or.inr (Or.inr (Or.inr rfl)), rfl, rfl⟩⟩
  dsimp only at h
  rcases hsm : sm ((xu + xv) / 2) ((yu + yv) / 2) with err | q <;> rw [hsm] at h
  · cases h
  · cases h
    exact ⟨rfl, rfl, rfl, rfl,
      Or.inl ⟨xu, yu, xv, yv, q, rfl, rfl, rfl, rfl, hsm, rfl, rfl⟩⟩

/-- Every edge of a successfully annotated edge list comes from a successful
`annEdge` on some input edge. -/
lemma annotateEdges_mem (G : Graph) (sm : ℚ → ℚ → Except SafetyErr ℚ) (eps : ℝ)
    (es es' : List Edge) (h : annotateEdges G sm eps es = .ok es') :
    ∀ e' ∈ es', ∃ e ∈ es, annEdge G sm eps e = .ok e' := by
  induction es generalizing es' with
  | nil =>
      unfold annotateEdges at h
      cases h
      intro e' he'
      cases he'
  | cons e es ih =>
      unfold annotateEdges at h
      rcases hae : annEdge G sm eps e with err | e1 <;> rw [hae] at h
      · cases h
      rcases hrest : annotateEdges G sm eps es with err | es1 <;> rw [hrest] at h
      · cases h
      cases h
      intro e' he'
      rcases List.mem_cons.mp he' with rfl | hmem
      · exact ⟨e, List.mem_cons_self e es, hae⟩
      · rcases ih es1 hrest e' hmem with ⟨e0, he0, hh⟩
        exact ⟨e0, List.mem_cons_of_mem e he0, hh⟩

/-- Every path through `build_fresh` calls the Network Provider. -/
lemma build_fresh_called (st : AppState) (provider : ℚ × ℚ × ℚ × ℚ → Except Unit Graph)
    (sm : ℚ → ℚ → Except SafetyErr ℚ) (north south east west : ℚ) :
    (build_fresh st provider sm north south east west).2.2 = true := by
  rcases hp : provider (reduce_box north south east west) with _ | G0
  · simp only [build_fresh, hp]
  · rcases ha : annotate_graph_with_safety G0 sm (1/1000000) with _ | G1 <;>
      simp only [build_fresh, hp, ha]

/-- `init_road_graph` with a loaded graph and bounds skips the disk branch
and reduces to the containment check. -/
lemma init_road_graph_some (g : Graph) (gn gs ge gw : ℚ) (disk : DiskCache)
    (provider : ℚ × ℚ × ℚ × ℚ → Except Unit Graph)
    (sm : ℚ → ℚ → Except SafetyErr ℚ) (north south east west : ℚ) :
    init_road_graph ⟨some g, some (gn, gs, ge, gw)⟩ disk provider sm false
        north south east west
      = if north ≤ gn + 1/100 ∧ south ≥ gs - 1/100
            ∧ east ≤ ge + 1/100 ∧ west ≥ gw - 1/100
        then (.ok g, ⟨some g, some (gn, gs, ge, gw)⟩, false)
        else build_fresh ⟨some g, some (gn, gs, ge, gw)⟩ provider sm
          north south east west := by
  cases disk <;> rfl

/-- Every path produced by the simple-path enumeration is a walk from `cur`
to `tgt`. -/
lemma simplePathsAux_sound (adj : Nat → List Nat) (fuel : Nat) :
    ∀ cur tgt visited p, p ∈ simplePathsAux adj fuel cur tgt visited →
      IsWalk adj cur tgt p := by
  induction fuel with
  | zero =>
      intro cur tgt visited p hp
      unfold simplePathsAux at hp
      by_cases h : cur = tgt
      · rw [if_pos h] at hp
        rcases List.mem_singleton.mp hp with rfl
        exact ⟨List.chain'_singleton cur, rfl, by simp [h]⟩
      · rw [if_neg h] at hp
        cases hp
  | succ fuel1 ih =>
      intro cur tgt visited p hp
      unfold simplePathsAux at hp
      by_cases h : cur = tgt
      · rw [if_pos h] at hp
        rcases List.mem_singleton.mp hp with rfl
        exact ⟨List.chain'_singleton cur, rfl, by simp [h]⟩
      · rw [if_neg h] at hp
        rcases List.mem_flatMap.mp hp with ⟨n, hn, hpmem⟩
        rcases List.mem_map.mp hpmem with ⟨p1, hp1, rfl⟩
        obtain ⟨hchain, hhead, hlast⟩ := ih n tgt (cur :: visited) p1 hp1
        have hadj : n ∈ adj cur := (List.mem_filter.mp hn).1
        cases p1 with
        | nil => cases hhead
        | cons a rest =>
            have ha : a = n := Option.some.inj hhead
            subst ha
            refine ⟨List.chain'_cons.mpr ⟨hadj, hchain⟩, rfl, ?_⟩
            rw [List.getLast?_cons_cons]
            exact hlast

lemma argmin_foldl_mem (w : List Nat → ℝ) (l : List (List Nat)) :
    ∀ a, l.foldl (fun best q => if w q < w best then q else best) a ∈ a :: l := by
  induction l with
  | nil => intro a; simp
  | cons q qs ih =>
      intro a
      simp only [List.foldl_cons]
      by_cases h : w q < w a
      · rw [if_pos h]
        exact List.mem_cons_of_mem a (ih q)
      · rw [if_neg h]
        rcases List.mem_cons.mp (ih a) with h1 | h1
        · rw [h1]
          exact List.mem_cons_self a (q :: qs)
        · exact List.mem_cons_of_mem a (List.mem_cons_of_mem q h1)

lemma argminPath_mem (w : List Nat → ℝ) (l : List (List Nat)) (p : List Nat)
    (h : argminPath w l = some p) : p ∈ l := by
  cases l with
  | nil => cases h
  | cons p0 ps =>
      unfold argminPath at h
      cases h
      exact argmin_foldl_mem w ps p0

lemma pathCoords_cons_ne_nil (G : Graph) (x : Nat) (xs : List Nat)
    (cs : List (ℚ × ℚ)) (h : pathCoords G (x :: xs) = some cs) : cs ≠ [] := by
  unfold pathCoords at h
  rcases hc : coordOf G x with _ | c <;> rw [hc] at h
  · cases h
  rcases hrest : pathCoords G xs with _ | cs1 <;> rw [hrest] at h
  · cases h
  cases h
  simp

lemma pathCoords_head (G : Graph) (p : List Nat) (cs : List (ℚ × ℚ)) (n : Nat)
    (h : pathCoords G p = some cs) (hh : p.head? = some n) :
    cs.head? = coordOf G n := by
  cases p with
  | nil => cases hh
  | cons a rest =>
      have ha : a = n := Option.some.inj hh
      subst ha
      unfold pathCoords at h
      rcases hc : coordOf G a with _ | c <;> rw [hc] at h
      · cases h
      rcases hrest : pathCoords G rest with _ | cs1 <;> rw [hrest] at h
      · cases h
      cases h
      simp [hc]

lemma pathCoords_getLast (G : Graph) (p : List Nat) (cs : List (ℚ × ℚ)) (n : Nat)
    (h : pathCoords G p = some cs) (hl : p.getLast? = some n) :
    cs.getLast? = coordOf G n := by
  induction p generalizing cs with
  | nil => cases hl
  | cons a rest ih =>
      unfold pathCoords at h
      rcases hc : coordOf G a with _ | c <;> rw [hc] at h
      · cases h
      rcases hrest : pathCoords G rest with _ | cs1 <;> rw [hrest] at h
      · cases h
      cases h
      cases rest with
      | nil =>
          cases hl
          cases hrest
          simp [hc]
      | cons b rest2 =>
          rw [List.getLast?_cons_cons] at hl
          have htail := ih cs1 hrest hl
          have hne := pathCoords_cons_ne_nil G b rest2 cs1 hrest
          cases cs1 with
          | nil => exact absurd rfl hne
          | cons c1 cs2 =>
              rw [List.getLast?_cons_cons]
              exact htail

lemma annotate_nodes (G : Graph) (sm : ℚ → ℚ → Except SafetyErr ℚ) (eps : ℝ)
    (G' : Graph) (h : annotate_graph_with_safety G sm eps = .ok G') :
    G'.nodes = G.nodes := by
  unfold annotate_graph_with_safety at h
  rcases he : annotateEdges G sm eps G.edges with _ | es <;> rw [he] at h
  · cases h
  · cases h
    rfl

lemma foldl_min_mul (l : List ℝ) (a k : ℝ) (hk : 0 ≤ k) :
    (l.map (· * k)).foldl min (a * k) = l.foldl min a * k := by
  induction l generalizing a with
  | nil => simp
  | cons x xs ih => simpa [min_mul_of_nonneg _ _ hk] using ih (min a x)

/-- If every edge's safety cost is its raw length scaled by `k ≥ 0`, each
step weight under the safety-cost selector is the length-selector step
weight scaled by `k`. -/
lemma matchmin_scale (l : List ℝ) (k : ℝ) (hk : 0 ≤ k) :
    (match l.map (fun x => x * k) with | [] => (0:ℝ) | c :: cs => cs.foldl min c)
      = (match l with | [] => (0:ℝ) | c :: cs => cs.foldl min c) * k := by
  cases l with
  | nil => simp
  | cons c cs =>
      simp only [List.map_cons]
      exact foldl_min_mul cs c k hk

lemma edgeWeight_scale (G' : Graph) (k : ℝ) (hk : 0 ≤ k)
    (P : ∀ e ∈ G'.edges, e.data.safety_cost.getD 1 = e.data.length.getD 1 * k)
    (u v : Nat) :
    edgeWeight G' (fun dt => dt.safety_cost.getD 1) u v
      = edgeWeight G' (fun dt => dt.length.getD 1) u v * k := by
  unfold edgeWeight
  have hmap : (G'.edges.filter (fun e => e.u == u && e.v == v)).map
        (fun e => e.data.safety_cost.getD 1)
      = ((G'.edges.filter (fun e => e.u == u && e.v == v)).map
        (fun e => e.data.length.getD 1)).map (fun x => x * k) := by
    rw [List.map_map]
    exact List.map_congr_left
      (fun e he => P e (List.mem_of_mem_filter he))
  rw [hmap]
  exact matchmin_scale _ k hk

lemma pathWeight_scale (G' : Graph) (k : ℝ) (hk : 0 ≤ k)
    (P : ∀ e ∈ G'.edges, e.data.safety_cost.getD 1 = e.data.length.getD 1 * k) :
    ∀ p, pathWeight G' (fun dt => dt.safety_cost.getD 1) p
      = pathWeight G' (fun dt => dt.length.getD 1) p * k := by
  intro p
  induction p with
  | nil => simp [pathWeight]
  | cons u rest ih =>
      cases rest with
      | nil => simp [pathWeight]
      | cons v rest2 =>
          show edgeWeight G' (fun dt => dt.safety_cost.getD 1) u v
              + pathWeight G' (fun dt => dt.safety_cost.getD 1) (v :: rest2)
            = (edgeWeight G' (fun dt => dt.length.getD 1) u v
              + pathWeight G' (fun dt => dt.length.getD 1) (v :: rest2)) * k
          rw [edgeWeight_scale G' k hk P u v, ih]
          ring

lemma argminPath_scale (w : List Nat → ℝ) (k : ℝ) (hk : 0 < k)
    (l : List (List Nat)) :
    argminPath (fun p => w p * k) l = argminPath w l := by
  cases l with
  | nil => rfl
  | cons p ps =>
      unfold argminPath
      induction ps generalizing p with
      | nil => rfl
      | cons q qs ih =>
          simp only [List.foldl_cons]
          rw [show (if w q * k < w p * k then q else p)
              = (if w q < w p then q else p) from by
            by_cases h : w q < w p
            · rw [if_pos h, if_pos ((mul_lt_mul_right hk).mpr h)]
            · rw [if_neg h, if_neg (fun hc => h ((mul_lt_mul_right hk).mp hc))]]
          exact ih _

lemma rawScore_shift (w : Weights) (p : ColPresence) (r : Row) :
    specRawScore w p r = rawScore w p r + shiftC w p := by
  unfold specRawScore rawScore shiftC compLight compPolice compStation
    specDistVal specCountVal distVal countVal
  cases p.dl <;> cases p.dp <;> cases p.ds <;> simp <;> ring

/-! ## Claim theorems: safety score field -/

/-- Claim C2: for every weight mapping and every feature table,
`compute_scores` produces exactly the scores described by the spec (per-point
components by the stated formulas with missing values defaulting to distance
9999 and count 0, weighted sum, min-max normalization), the all-equal raw
score case yields exactly 1.0 everywhere, and every resulting score lies in
`[0, 1]`. -/
theorem compute_scores_correct (w : Weights) (p : ColPresence) (rows : List Row) :
    computeScoresList w p rows = specScoresList w p rows
    ∧ (∀ s ∈ computeScoresList w p rows, 0 ≤ s ∧ s ≤ 1)
    ∧ (∀ mn mx, seriesMin (rows.map (rawScore w p)) = some mn →
        seriesMax (rows.map (rawScore w p)) = some mx → mx = mn →
        computeScoresList w p rows = List.replicate rows.length 1) := by
  refine ⟨?_, ?_, ?_⟩
  · unfold computeScoresList specScoresList
    have hmap : rows.map (specRawScore w p)
        = (rows.map (rawScore w p)).map (· + shiftC w p) := by
      rw [List.map_map]
      exact List.map_congr_left fun r _ => rawScore_shift w p r
    rw [hmap, minmaxNorm_map_add]
  · exact fun s hs => minmaxNorm_mem_unit _ s hs
  · intro mn mx hmn hmx heq
    unfold computeScoresList
    rw [minmaxNorm_all_one _ mn mx hmn hmx heq, List.length_map]

/-- Witness for C2 at a concrete one-row table with some columns absent and
some cells NaN: the normalized output is exactly `[1]`. -/
theorem compute_scores_correct_witness :
    computeScoresList defaultWeights ⟨true, true, false, true, true, false⟩
      [⟨0, 0, some 5, some 1, none, none, some 2, none, [some 3, none]⟩]
      = List.replicate 1 1 := by
  have h := compute_scores_correct defaultWeights
    ⟨true, true, false, true, true, false⟩
    [⟨0, 0, some 5, some 1, none, none, some 2, none, [some 3, none]⟩]
  exact h.2.2 _ _ rfl rfl rfl

/-- Claim C9: a score query before `compute_scores` has run fails with the
"not computed" (`notReady`) error, and a score query against an empty
analysis-point table (after computing) fails with the "no data" (`noData`)
error instead of silently returning a default value. -/
theorem score_location_errors :
    (∀ (m : SafetyModel) (lon lat : ℚ), m.scores = none →
        m.score_location lon lat = .error .notReady)
    ∧ (∀ (m : SafetyModel) (w : Weights) (lon lat : ℚ), m.rows = [] →
        (m.compute_scores w).score_location lon lat = .error .noData) := by
  constructor
  · intro m lon lat h
    unfold SafetyModel.score_location
    rw [h]
  · intro m w lon lat h
    unfold SafetyModel.score_location SafetyModel.compute_scores
    simp only [h, nearestIdx]

/-- Witness for C9 at a concrete empty model. -/
theorem score_location_errors_witness :
    (SafetyModel.mk [] ⟨true, true, true, true, true, true⟩ none).score_location 0 0
        = .error .notReady
    ∧ ((SafetyModel.mk [] ⟨true, true, true, true, true, true⟩ none).compute_scores
        defaultWeights).score_location 0 0 = .error .noData :=
  ⟨score_location_errors.1 _ 0 0 rfl, score_location_errors.2 _ defaultWeights 0 0 rfl⟩

/-! ## Claim theorems: network annotator -/

/-- Claim C3 counterexample: the claim asserts `safety_cost > 0` for all
edges, but a self-loop edge (identical endpoint coordinates) has haversine
length 0 and therefore `safety_cost = 0` after annotation. -/
theorem safety_cost_pos_cex :
    (annotate_graph_with_safety
        ⟨[(0, ⟨some 5, some 7, none, none⟩)], [⟨0, 0, 0, ⟨some 10, none, none⟩⟩]⟩
        (fun _ _ => .ok (1/2)) (1/1000000)).map
      (fun g => g.edges.map fun e => e.data.safety_cost) = .ok [some 0]
    ∧ ¬ ((0 : ℝ) < 0) := by
  constructor
  · have h1 : annotate_graph_with_safety
        ⟨[(0, ⟨some 5, some 7, none, none⟩)], [⟨0, 0, 0, ⟨some 10, none, none⟩⟩]⟩
        (fun _ _ => .ok (1/2)) (1/1000000)
        = .ok ⟨[(0, ⟨some 5, some 7, none, none⟩)],
            [⟨0, 0, 0, ⟨some 10, some ((1/2 : ℚ) : ℝ),
              some (haversine_meters ((5:ℚ):ℝ) ((7:ℚ):ℝ) ((5:ℚ):ℝ) ((7:ℚ):ℝ)
                / (((1/2 : ℚ) : ℝ) + 1/1000000))⟩⟩]⟩ := rfl
    rw [h1, haversine_self, zero_div]
    rfl
  · exact lt_irrefl 0

/-- Claim C3 (amended): after annotation with `eps = 1e-6`, provided the
safety model only returns nonnegative scores and provider lengths are
nonnegative, every edge satisfies `safety_cost = length / (score + eps)`
with the haversine endpoint distance as the length whenever both endpoint
coordinates are present, the denominator `score + eps` is strictly positive
even when the score is 0, and `safety_cost ≥ 0` (equality 0 being possible
for zero-length edges, which is what refutes the original `> 0`). -/
theorem safety_cost_formula_nonneg (G : Graph) (sm : ℚ → ℚ → Except SafetyErr ℚ)
    (G' : Graph)
    (hsm : ∀ lon lat s, sm lon lat = .ok s → 0 ≤ s)
    (hlen : ∀ e ∈ G.edges, ∀ l, e.data.length = some l → (0:ℝ) ≤ l)
    (hG : annotate_graph_with_safety G sm (1/1000000) = .ok G') :
    ∀ e' ∈ G'.edges, ∃ s c : ℝ,
      e'.data.safety = some s ∧ e'.data.safety_cost = some c
      ∧ 0 ≤ s ∧ (0:ℝ) < s + 1/1000000 ∧ 0 ≤ c
      ∧ (∀ xu yu xv yv : ℚ,
          (nodeAttrsOf G e'.u).x = some xu → (nodeAttrsOf G e'.u).y = some yu →
          (nodeAttrsOf G e'.v).x = some xv → (nodeAttrsOf G e'.v).y = some yv →
          c = haversine_meters ↑xu ↑yu ↑xv ↑yv / (s + 1/1000000)) := by
  intro e' he'
  unfold annotate_graph_with_safety at hG
  rcases han : annotateEdges G sm (1/1000000) G.edges with err | es <;> rw [han] at hG
  · cases hG
  cases hG
  rcases annotateEdges_mem G sm (1/1000000) G.edges es han e' he' with ⟨e, he, hae⟩
  rcases annEdge_ok G sm (1/1000000) e e' hae with ⟨hu, hv, _, _, hcase⟩
  rcases hcase with ⟨xu, yu, xv, yv, q, hxu, hyu, hxv, hyv, hsmq, hs, hc⟩
    | ⟨hmiss, hs, hc⟩
  · have hq : (0:ℝ) ≤ ↑q := by exact_mod_cast hsm _ _ _ hsmq
    have hden : (0:ℝ) < ↑q + 1/1000000 := by
      have : (0:ℝ) < 1/1000000 := by norm_num
      linarith
    refine ⟨↑q, _, hs, hc, hq, hden, div_nonneg (haversine_nonneg _ _ _ _) hden.le, ?_⟩
    intro xu0 yu0 xv0 yv0 h1 h2 h3 h4
    rw [hu] at h1 h2
    rw [hv] at h3 h4
    rw [hxu] at h1
    rw [hyu] at h2
    rw [hxv] at h3
    rw [hyv] at h4
    cases h1
    cases h2
    cases h3
    cases h4
    rfl
  · have hlen1 : (0:ℝ) ≤ e.data.length.getD 1 := by
      rcases hl : e.data.length with _ | l
      · norm_num
      · exact hlen e he l hl
    have hden : (0:ℝ) < 1/2 + 1/1000000 := by norm_num
    refine ⟨1/2, _, hs, hc, by norm_num, by norm_num, div_nonneg hlen1 hden.le, ?_⟩
    intro xu0 yu0 xv0 yv0 h1 h2 h3 h4
    rw [hu] at h1 h2
    rw [hv] at h3 h4
    rcases hmiss with h | h | h | h
    · rw [h] at h1; cases h1
    · rw [h] at h2; cases h2
    · rw [h] at h3; cases h3
    · rw [h] at h4; cases h4

/-- Witness for the amended C3 at a concrete graph: a single node 0 at
(0, 0) with a self-loop of provider length 5. -/
theorem safety_cost_formula_nonneg_witness :
    ∃ s c : ℝ,
      (Edge.mk 0 0 0 ⟨some 5, some ((1/2 : ℚ) : ℝ),
        some (haversine_meters ((0:ℚ):ℝ) ((0:ℚ):ℝ) ((0:ℚ):ℝ) ((0:ℚ):ℝ)
          / (((1/2 : ℚ) : ℝ) + 1/1000000))⟩).data.safety = some s
      ∧ (Edge.mk 0 0 0 ⟨some 5, some ((1/2 : ℚ) : ℝ),
          some (haversine_meters ((0:ℚ):ℝ) ((0:ℚ):ℝ) ((0:ℚ):ℝ) ((0:ℚ):ℝ)
            / (((1/2 : ℚ) : ℝ) + 1/1000000))⟩).data.safety_cost = some c
      ∧ 0 ≤ s ∧ (0:ℝ) < s + 1/1000000 ∧ 0 ≤ c
      ∧ (∀ xu yu xv yv : ℚ,
          (nodeAttrsOf ⟨[(0, ⟨some 0, some 0, none, none⟩)],
              [⟨0, 0, 0, ⟨some 5, none, none⟩⟩]⟩ 0).x = some xu →
          (nodeAttrsOf ⟨[(0, ⟨some 0, some 0, none, none⟩)],
              [⟨0, 0, 0, ⟨some 5, none, none⟩⟩]⟩ 0).y = some yu →
          (nodeAttrsOf ⟨[(0, ⟨some 0, some 0, none, none⟩)],
              [⟨0, 0, 0, ⟨some 5, none, none⟩⟩]⟩ 0).x = some xv →
          (nodeAttrsOf ⟨[(0, ⟨some 0, some 0, none, none⟩)],
              [⟨0, 0, 0, ⟨some 5, none, none⟩⟩]⟩ 0).y = some yv →
          c = haversine_meters ↑xu ↑yu ↑xv ↑yv / (s + 1/1000000)) := by
  have h := safety_cost_formula_nonneg
    ⟨[(0, ⟨some 0, some 0, none, none⟩)], [⟨0, 0, 0, ⟨some 5, none, none⟩⟩]⟩
    (fun _ _ => .ok (1/2))
    ⟨[(0, ⟨some 0, some 0, none, none⟩)],
      [⟨0, 0, 0, ⟨some 5, some ((1/2 : ℚ) : ℝ),
        some (haversine_meters ((0:ℚ):ℝ) ((0:ℚ):ℝ) ((0:ℚ):ℝ) ((0:ℚ):ℝ)
          / (((1/2 : ℚ) : ℝ) + 1/1000000))⟩⟩]⟩
    (by intro lon lat s hok; cases hok; norm_num)
    (by
      intro e he l hl
      rcases List.mem_singleton.mp he with rfl
      cases hl
      norm_num)
    rfl
  exact h _ (List.mem_singleton.mpr rfl)

/-- Claim C6 counterexample: the claim says a malformed edge gets a nominal
length of 1.0 for the safety-cost calculation, but the code uses
`data.get("length", 1.0)`, i.e. the provider-supplied length attribute when
present: with `length = 7` the resulting cost is `7 / (0.5 + 1e-6)`, not
`1 / (0.5 + 1e-6)`. -/
theorem malformed_edge_cex :
    (annotate_graph_with_safety (Graph.mk [] [⟨0, 1, 0, ⟨some 7, none, none⟩⟩])
        (fun _ _ => .error .notReady) (1/1000000)).map
      (fun g => g.edges.map fun e => e.data.safety_cost)
      = .ok [some ((7:ℝ) / (1/2 + 1/1000000))]
    ∧ (7:ℝ) / (1/2 + 1/1000000) ≠ (1:ℝ) / (1/2 + 1/1000000) := by
  constructor
  · rfl
  · norm_num

/-- Claim C6 (amended): during annotation, an edge with either endpoint's
coordinates missing is recovered in place — for any safety model (even an
always-failing one) and any `eps`, `annEdge` returns `ok` (never an error)
and assigns the neutral score `0.5` and `safety_cost = data.get("length",
1.0) / (0.5 + eps)`, i.e. the provider length attribute with `1.0` only as
the fallback when that attribute is absent. -/
theorem malformed_edge_recovered (G : Graph) (sm : ℚ → ℚ → Except SafetyErr ℚ)
    (eps : ℝ) (e : Edge)
    (h : (nodeAttrsOf G e.u).x = none ∨ (nodeAttrsOf G e.u).y = none
        ∨ (nodeAttrsOf G e.v).x = none ∨ (nodeAttrsOf G e.v).y = none) :
    annEdge G sm eps e = .ok ⟨e.u, e.v, e.key,
      ⟨e.data.length, some (1/2), some ((e.data.length.getD 1) / (1/2 + eps))⟩⟩ := by
  unfold annEdge
  rcases hxu : (nodeAttrsOf G e.u).x with _ | xu
  · rfl
  rcases hyu : (nodeAttrsOf G e.u).y with _ | yu
  · rfl
  rcases hxv : (nodeAttrsOf G e.v).x with _ | xv
  · rfl
  rcases hyv : (nodeAttrsOf G e.v).y with _ | yv
  · rfl
  rcases h with h | h | h | h
  · cases hxu.symm.trans h
  · cases hyu.symm.trans h
  · cases hxv.symm.trans h
  · cases hyv.symm.trans h

/-- Witness for the amended C6: a concrete malformed edge (no node data at
all) with an always-failing safety model and provider length 7. -/
theorem malformed_edge_recovered_witness :
    annEdge (Graph.mk [] [⟨0, 1, 0, ⟨some 7, none, none⟩⟩])
        (fun _ _ => .error .notReady) (1/1000000)
        ⟨0, 1, 0, ⟨some 7, none, none⟩⟩
      = .ok ⟨0, 1, 0, ⟨some 7, some (1/2),
          some (((some (7:ℝ)).getD 1) / (1/2 + 1/1000000))⟩⟩ :=
  malformed_edge_recovered (Graph.mk [] [⟨0, 1, 0, ⟨some 7, none, none⟩⟩])
    (fun _ _ => .error .notReady) (1/1000000) ⟨0, 1, 0, ⟨some 7, none, none⟩⟩
    (Or.inl rfl)

/-! ## Claim theorems: graph cache -/

/-- Claim C4: given a cached graph with bounds `(gn, gs, ge, gw)` and no
forced reload, a request box is served from the cache (no Network Provider
call, state unchanged) exactly when `north ≤ gn+0.01 ∧ south ≥ gs-0.01 ∧
east ≤ ge+0.01 ∧ west ≥ gw-0.01`; a box exceeding that tolerance triggers a
Network Provider call. -/
theorem cache_reuse_iff (disk : DiskCache)
    (provider : ℚ × ℚ × ℚ × ℚ → Except Unit Graph)
    (sm : ℚ → ℚ → Except SafetyErr ℚ) (g : Graph)
    (gn gs ge gw north south east west : ℚ) :
    ((north ≤ gn + 1/100 ∧ south ≥ gs - 1/100
        ∧ east ≤ ge + 1/100 ∧ west ≥ gw - 1/100) →
      init_road_graph ⟨some g, some (gn, gs, ge, gw)⟩ disk provider sm false
          north south east west
        = (.ok g, ⟨some g, some (gn, gs, ge, gw)⟩, false))
    ∧ (¬(north ≤ gn + 1/100 ∧ south ≥ gs - 1/100
        ∧ east ≤ ge + 1/100 ∧ west ≥ gw - 1/100) →
      (init_road_graph ⟨some g, some (gn, gs, ge, gw)⟩ disk provider sm false
          north south east west).2.2 = true) := by
  constructor
  · intro h
    rw [init_road_graph_some, if_pos h]
  · intro h
    rw [init_road_graph_some, if_neg h, build_fresh_called]

/-- Witness for C4: a request box exactly equal to the cached box is served
from the cache without calling the provider. -/
theorem cache_reuse_iff_witness :
    init_road_graph ⟨some (Graph.mk [] []), some (1, 0, 1, 0)⟩ .absent
        (fun _ => .error ()) (fun _ _ => .ok 0) false 1 0 1 0
      = (.ok (Graph.mk [] []), ⟨some (Graph.mk [] []), some (1, 0, 1, 0)⟩, false) :=
  (cache_reuse_iff .absent (fun _ => .error ()) (fun _ _ => .ok 0)
    (Graph.mk [] []) 1 0 1 0 1 0 1 0).1 (by norm_num)

/-- Claim C5: whenever a fresh build is required, the box handed to the
Network Provider spans exactly 50% of the requested box's latitude and
longitude spans, centered on the requested box's center, and the resulting
cache entry pairs the annotated graph with the exact bounding box the build
was requested for, `(north, south, east, west)`. -/
theorem fresh_build_box_and_cache (disk : DiskCache)
    (provider : ℚ × ℚ × ℚ × ℚ → Except Unit Graph)
    (sm : ℚ → ℚ → Except SafetyErr ℚ) (g : Graph)
    (gn gs ge gw north south east west : ℚ)
    (hnc : ¬(north ≤ gn + 1/100 ∧ south ≥ gs - 1/100
        ∧ east ≤ ge + 1/100 ∧ west ≥ gw - 1/100))
    (G0 G1 : Graph)
    (hp : provider (reduce_box north south east west) = .ok G0)
    (ha : annotate_graph_with_safety G0 sm (1/1000000) = .ok G1) :
    init_road_graph ⟨some g, some (gn, gs, ge, gw)⟩ disk provider sm false
        north south east west
      = (.ok G1, ⟨some G1, some (north, south, east, west)⟩, true)
    ∧ (reduce_box north south east west).1 - (reduce_box north south east west).2.1
        = (north - south) / 2
    ∧ (reduce_box north south east west).2.2.1
        - (reduce_box north south east west).2.2.2 = (east - west) / 2
    ∧ (reduce_box north south east west).1 + (reduce_box north south east west).2.1
        = north + south
    ∧ (reduce_box north south east west).2.2.1
        + (reduce_box north south east west).2.2.2 = east + west := by
  refine ⟨?_, by simp [reduce_box]; try ring, by simp [reduce_box]; try ring,
    by simp [reduce_box]; try ring, by simp [reduce_box]; try ring⟩
  rw [init_road_graph_some, if_neg hnc]
  simp only [build_fresh, hp, ha]

/-- Witness for C5 with an empty provider graph and a request box far
outside the cached box. -/
theorem fresh_build_box_and_cache_witness :
    init_road_graph ⟨some (Graph.mk [] []), some (1, 0, 1, 0)⟩ .absent
        (fun _ => .ok (Graph.mk [] [])) (fun _ _ => .ok 0) false 10 9 10 9
      = (.ok (Graph.mk [] []), ⟨some (Graph.mk [] []), some (10, 9, 10, 9)⟩, true)
    ∧ (reduce_box 10 9 10 9).1 - (reduce_box 10 9 10 9).2.1 = (10 - 9) / 2
    ∧ (reduce_box 10 9 10 9).2.2.1 - (reduce_box 10 9 10 9).2.2.2 = (10 - 9) / 2
    ∧ (reduce_box 10 9 10 9).1 + (reduce_box 10 9 10 9).2.1 = 10 + 9
    ∧ (reduce_box 10 9 10 9).2.2.1 + (reduce_box 10 9 10 9).2.2.2 = 10 + 9 :=
  fresh_build_box_and_cache .absent (fun _ => .ok (Graph.mk [] []))
    (fun _ _ => .ok 0) (Graph.mk [] []) 1 0 1 0 10 9 10 9 (by norm_num)
    (Graph.mk [] []) (Graph.mk [] []) rfl rfl

/-- Claim C7: a failed build is atomic with respect to the graph cache:
when the request misses the cached bounds and the Network Provider call
fails (or annotation fails), the error propagates (`providerUnavailable`
distinguished from scoring failures) and the previously cached graph and
bounds are returned unchanged in the state. -/
theorem failed_build_preserves_cache (disk : DiskCache)
    (provider : ℚ × ℚ × ℚ × ℚ → Except Unit Graph)
    (sm : ℚ → ℚ → Except SafetyErr ℚ) (g : Graph)
    (gn gs ge gw north south east west : ℚ)
    (hnc : ¬(north ≤ gn + 1/100 ∧ south ≥ gs - 1/100
        ∧ east ≤ ge + 1/100 ∧ west ≥ gw - 1/100)) :
    (provider (reduce_box north south east west) = .error () →
      init_road_graph ⟨some g, some (gn, gs, ge, gw)⟩ disk provider sm false
          north south east west
        = (.error .providerUnavailable, ⟨some g, some (gn, gs, ge, gw)⟩, true))
    ∧ (∀ G0 err, provider (reduce_box north south east west) = .ok G0 →
        annotate_graph_with_safety G0 sm (1/1000000) = .error err →
        init_road_graph ⟨some g, some (gn, gs, ge, gw)⟩ disk provider sm false
            north south east west
          = (.error (.scoringFailure err), ⟨some g, some (gn, gs, ge, gw)⟩, true)) := by
  constructor
  · intro hp
    rw [init_road_graph_some, if_neg hnc]
    simp only [build_fresh, hp]
  · intro G0 err hp ha
    rw [init_road_graph_some, if_neg hnc]
    simp only [build_fresh, hp, ha]

/-- Witness for C7: a provider that always fails leaves the previously
cached graph and bounds in place and surfaces `providerUnavailable`. -/
theorem failed_build_preserves_cache_witness :
    init_road_graph ⟨some (Graph.mk [] []), some (1, 0, 1, 0)⟩ .absent
        (fun _ => .error ()) (fun _ _ => .ok 0) false 10 9 10 9
      = (.error .providerUnavailable, ⟨some (Graph.mk [] []), some (1, 0, 1, 0)⟩, true) :=
  (failed_build_preserves_cache .absent (fun _ => .error ()) (fun _ _ => .ok 0)
    (Graph.mk [] []) 1 0 1 0 10 9 10 9 (by norm_num)).1 rfl

/-! ## Claim theorems: route planner -/

/-- Claim C8: whenever the shortest-path search finds a path whose node
coordinates resolve, the returned coordinate sequence follows that path in
traversal order, its first element is the snapped origin node's coordinate
and its last element is the snapped destination node's coordinate; and when
the snapped endpoints are disconnected (no walk exists), the result is the
explicit empty-list "no path" signal rather than an escaping exception. -/
theorem route_endpoints_and_no_path (G : Graph) (o d : ℚ × ℚ) (s t : Nat)
    (ho : nearest_node G o.1 o.2 = some s)
    (hd : nearest_node G d.1 d.2 = some t) :
    (∀ p cs, shortestPathBy G (fun dt => dt.safety_cost.getD 1) s t = some p →
        pathCoords G p = some cs →
        safest_route_on_graph G o d = some cs
        ∧ cs.head? = coordOf G s ∧ cs.getLast? = coordOf G t)
    ∧ ((¬ ∃ p, IsWalk (adjOf G) s t p) → safest_route_on_graph G o d = some []) := by
  constructor
  · intro p cs hp hcs
    have hmem : p ∈ simplePathsAux (adjOf G) G.nodes.length s t [] := by
      unfold shortestPathBy at hp
      exact argminPath_mem _ _ _ hp
    have hw := simplePathsAux_sound (adjOf G) G.nodes.length s t [] p hmem
    refine ⟨?_, pathCoords_head G p cs s hcs hw.2.1,
      pathCoords_getLast G p cs t hcs hw.2.2⟩
    simp only [safest_route_on_graph, ho, hd, hp, hcs]
  · intro hnp
    have hempty : simplePathsAux (adjOf G) G.nodes.length s t [] = [] := by
      rcases hq : simplePathsAux (adjOf G) G.nodes.length s t [] with _ | ⟨q, qs⟩
      · rfl
      · exact absurd ⟨q, simplePathsAux_sound (adjOf G) G.nodes.length s t [] q
          (by rw [hq]; exact List.mem_cons_self q qs)⟩ hnp
    have hsp : shortestPathBy G (fun dt => dt.safety_cost.getD 1) s t = none := by
      unfold shortestPathBy
      rw [hempty]
      rfl
    simp only [safest_route_on_graph, ho, hd, hsp]

/-- Witness for C8 on two concrete graphs: a connected pair of nodes and a
disconnected pair of nodes. -/
theorem route_endpoints_and_no_path_witness :
    (safest_route_on_graph
        ⟨[(0, ⟨some 0, some 0, none, none⟩), (1, ⟨some 1, some 0, none, none⟩)],
          [⟨0, 1, 0, ⟨some 5, none, none⟩⟩]⟩ (0, 0) (1, 0)
        = some [((0:ℚ), (0:ℚ)), (1, 0)]
      ∧ ([((0:ℚ), (0:ℚ)), (1, 0)]).head?
          = coordOf ⟨[(0, ⟨some 0, some 0, none, none⟩), (1, ⟨some 1, some 0, none, none⟩)],
              [⟨0, 1, 0, ⟨some 5, none, none⟩⟩]⟩ 0
      ∧ ([((0:ℚ), (0:ℚ)), (1, 0)]).getLast?
          = coordOf ⟨[(0, ⟨some 0, some 0, none, none⟩), (1, ⟨some 1, some 0, none, none⟩)],
              [⟨0, 1, 0, ⟨some 5, none, none⟩⟩]⟩ 1)
    ∧ safest_route_on_graph
        ⟨[(0, ⟨some 0, some 0, none, none⟩), (1, ⟨some 1, some 0, none, none⟩)], []⟩
        (0, 0) (1, 0) = some [] := by
  constructor
  · exact (route_endpoints_and_no_path
      ⟨[(0, ⟨some 0, some 0, none, none⟩), (1, ⟨some 1, some 0, none, none⟩)],
        [⟨0, 1, 0, ⟨some 5, none, none⟩⟩]⟩ (0, 0) (1, 0) 0 1
      (by norm_num [nearest_node, sqDist]) (by norm_num [nearest_node, sqDist])).1
      [0, 1] [((0:ℚ), (0:ℚ)), (1, 0)]
      (by simp [shortestPathBy, simplePathsAux, adjOf, argminPath])
      (by simp [pathCoords, coordOf, nodeAttrsOf, pickCoord])
  · apply (route_endpoints_and_no_path
      ⟨[(0, ⟨some 0, some 0, none, none⟩), (1, ⟨some 1, some 0, none, none⟩)], []⟩
      (0, 0) (1, 0) 0 1
      (by norm_num [nearest_node, sqDist]) (by norm_num [nearest_node, sqDist])).2
    rintro ⟨p, hchain, hhead, hlast⟩
    cases p with
    | nil => cases hhead
    | cons a rest =>
        have ha : a = 0 := Option.some.inj hhead
        subst ha
        cases rest with
        | nil => simp at hlast
        | cons b rest2 =>
            have hb : b ∈ adjOf
                ⟨[(0, ⟨some 0, some 0, none, none⟩), (1, ⟨some 1, some 0, none, none⟩)], []⟩
                0 := (List.chain'_cons.mp hchain).1
            simp [adjOf] at hb

/-- Claim C10: when origin and destination snap to the same graph node, the
route is the one-element list holding that node's coordinate — a non-empty
result distinct from the empty-list "no path" signal. -/
theorem same_snap_single_node (G : Graph) (o d : ℚ × ℚ) (n : Nat) (c : ℚ × ℚ)
    (ho : nearest_node G o.1 o.2 = some n) (hd : nearest_node G d.1 d.2 = some n)
    (hc : coordOf G n = some c) :
    safest_route_on_graph G o d = some [c]
    ∧ some [c] ≠ some ([] : List (ℚ × ℚ)) := by
  constructor
  · have hsp : shortestPathBy G (fun dt => dt.safety_cost.getD 1) n n = some [n] := by
      unfold shortestPathBy simplePathsAux
      rw [if_pos rfl]
      rfl
    have hpc : pathCoords G [n] = some [c] := by
      unfold pathCoords
      rw [hc]
      rfl
    simp only [safest_route_on_graph, ho, hd, hsp, hpc]
  · simp

/-- Witness for C10 on a one-node graph queried at the node's own
coordinate for both endpoints. -/
theorem same_snap_single_node_witness :
    safest_route_on_graph ⟨[(3, ⟨some 1, some 2, none, none⟩)], []⟩ (1, 2) (1, 2)
        = some [((1:ℚ), (2:ℚ))]
    ∧ some [((1:ℚ), (2:ℚ))] ≠ some ([] : List (ℚ × ℚ)) :=
  same_snap_single_node ⟨[(3, ⟨some 1, some 2, none, none⟩)], []⟩ (1, 2) (1, 2) 3
    (1, 2) rfl rfl rfl

/-! ## Claim theorems: route planner weight modes (C1) -/

/-- Claim C1 (amended): `safest_route_on_graph` (MINIMIZE_SAFETY_COST, edge
weight `safety_cost`) and the spec-modelled `fastest_route_on_graph`
(MINIMIZE_LENGTH, edge weight raw `length`) agree on every annotated graph
carrying one uniform safety score, provided additionally that every edge's
raw `length` attribute equals the haversine distance of its endpoints (the
counterexample shows the two modes diverge without this proviso, because
`safety_cost` is built from the haversine length while MINIMIZE_LENGTH uses
the raw attribute). -/
theorem uniform_score_routes_agree (G : Graph) (s : ℚ) (hs : 0 ≤ s) (G' : Graph)
    (hG : annotate_graph_with_safety G (fun _ _ => .ok s) (1/1000000) = .ok G')
    (hedges : ∀ e ∈ G.edges, ∃ xu yu xv yv : ℚ, ∃ l : ℝ,
        (nodeAttrsOf G e.u).x = some xu ∧ (nodeAttrsOf G e.u).y = some yu
        ∧ (nodeAttrsOf G e.v).x = some xv ∧ (nodeAttrsOf G e.v).y = some yv
        ∧ e.data.length = some l ∧ l = haversine_meters ↑xu ↑yu ↑xv ↑yv)
    (o d : ℚ × ℚ) :
    safest_route_on_graph G' o d = fastest_route_on_graph G' o d := by
  have hs' : (0:ℝ) ≤ (s:ℝ) := by exact_mod_cast hs
  have hden : (0:ℝ) < (s:ℝ) + 1/1000000 := by
    have h6 : (0:ℝ) < 1/1000000 := by norm_num
    linarith
  have hk : 0 < ((s:ℝ) + 1/1000000)⁻¹ := inv_pos.mpr hden
  have P : ∀ e ∈ G'.edges, e.data.safety_cost.getD 1
      = e.data.length.getD 1 * ((s:ℝ) + 1/1000000)⁻¹ := by
    intro e' he'
    unfold annotate_graph_with_safety at hG
    rcases han : annotateEdges G (fun _ _ => .ok s) (1/1000000) G.edges
      with _ | es <;> rw [han] at hG
    · cases hG
    cases hG
    rcases annotateEdges_mem _ _ _ _ _ han e' he' with ⟨e, he, hae⟩
    rcases annEdge_ok _ _ _ _ _ hae with ⟨_, _, _, hlen, hcase⟩
    rcases hedges e he with ⟨xu, yu, xv, yv, l, hxu, hyu, hxv, hyv, hl, hlhav⟩
    rcases hcase with ⟨xu2, yu2, xv2, yv2, q, hxu2, hyu2, hxv2, hyv2, hsm, _, hcost⟩
      | ⟨hmiss, _, _⟩
    · rw [hxu] at hxu2
      rw [hyu] at hyu2
      rw [hxv] at hxv2
      rw [hyv] at hyv2
      cases hxu2
      cases hyu2
      cases hxv2
      cases hyv2
      have hq : q = s := (Except.ok.inj hsm).symm
      subst hq
      rw [hcost, hlen, hl, hlhav, Option.getD_some, Option.getD_some,
        div_eq_mul_inv]
    · rcases hmiss with h | h | h | h
      · rw [hxu] at h
        cases h
      · rw [hyu] at h
        cases h
      · rw [hxv] at h
        cases h
      · rw [hyv] at h
        cases h
  have hpw : ∀ p, pathWeight G' (fun dt => dt.safety_cost.getD 1) p
      = pathWeight G' (fun dt => dt.length.getD 1) p * ((s:ℝ) + 1/1000000)⁻¹ :=
    pathWeight_scale G' _ hk.le P
  have hfun : pathWeight G' (fun dt => dt.safety_cost.getD 1)
      = fun p => pathWeight G' (fun dt => dt.length.getD 1) p
        * ((s:ℝ) + 1/1000000)⁻¹ := funext hpw
  have hsp : ∀ a b, shortestPathBy G' (fun dt => dt.safety_cost.getD 1) a b
      = shortestPathBy G' (fun dt => dt.length.getD 1) a b := by
    intro a b
    unfold shortestPathBy
    rw [hfun]
    exact argminPath_scale _ _ hk _
  simp only [safest_route_on_graph, fastest_route_on_graph, hsp]

/-- Witness for the amended C1 at a concrete graph whose raw length equals
the haversine endpoint distance (a zero-length self-loop): both weight
modes return the same route. -/
theorem uniform_score_routes_agree_witness :
    safest_route_on_graph
        ⟨[(0, ⟨some 2, some 5, none, none⟩)],
         [⟨0, 0, 0, ⟨some 0, some ((1/2:ℚ):ℝ),
            some (haversine_meters ((2:ℚ):ℝ) ((5:ℚ):ℝ) ((2:ℚ):ℝ) ((5:ℚ):ℝ)
              / (((1/2:ℚ):ℝ) + 1/1000000))⟩⟩]⟩ (2, 5) (2, 5)
      = fastest_route_on_graph
        ⟨[(0, ⟨some 2, some 5, none, none⟩)],
         [⟨0, 0, 0, ⟨some 0, some ((1/2:ℚ):ℝ),
            some (haversine_meters ((2:ℚ):ℝ) ((5:ℚ):ℝ) ((2:ℚ):ℝ) ((5:ℚ):ℝ)
              / (((1/2:ℚ):ℝ) + 1/1000000))⟩⟩]⟩ (2, 5) (2, 5) :=
  uniform_score_routes_agree
    ⟨[(0, ⟨some 2, some 5, none, none⟩)], [⟨0, 0, 0, ⟨some 0, none, none⟩⟩]⟩
    (1/2) (by norm_num)
    ⟨[(0, ⟨some 2, some 5, none, none⟩)],
     [⟨0, 0, 0, ⟨some 0, some ((1/2:ℚ):ℝ),
        some (haversine_meters ((2:ℚ):ℝ) ((5:ℚ):ℝ) ((2:ℚ):ℝ) ((5:ℚ):ℝ)
          / (((1/2:ℚ):ℝ) + 1/1000000))⟩⟩]⟩
    rfl
    (by
      intro e he
      rcases List.mem_singleton.mp he with rfl
      exact ⟨2, 5, 2, 5, 0, rfl, rfl, rfl, rfl, rfl, (haversine_self _ _).symm⟩)
    (2, 5) (2, 5)

/-- Claim C1 counterexample: on `cexGraph`, annotated with one uniform
safety score 0.5 on every edge, MINIMIZE_SAFETY_COST returns the direct
node sequence 1→3 (the detour via longitude 3 is geometrically longer)
while MINIMIZE_LENGTH returns the detour 1→2→3 (raw lengths 10+10 < 100):
the two modes return different node sequences. -/
theorem route_modes_differ_cex :
    (annotate_graph_with_safety cexGraph (fun _ _ => .ok (1/2)) (1/1000000)).map
      (fun g => (g.edges.map (fun e => e.data.safety),
        safest_route_on_graph g (0, 0) (2, 0),
        fastest_route_on_graph g (0, 0) (2, 0)))
      = .ok ([some ((1/2:ℚ):ℝ), some ((1/2:ℚ):ℝ), some ((1/2:ℚ):ℝ)],
          some [((0:ℚ), (0:ℚ)), (2, 0)],
          some [((0:ℚ), (0:ℚ)), (3, 0), (2, 0)])
    ∧ (some [((0:ℚ), (0:ℚ)), (2, 0)] : Option (List (ℚ × ℚ)))
        ≠ some [((0:ℚ), (0:ℚ)), (3, 0), (2, 0)] := by
  have hann : annotate_graph_with_safety cexGraph (fun _ _ => .ok (1/2)) (1/1000000)
      = .ok cexAnnotated := rfl
  have hcand : simplePathsAux (adjOf cexAnnotated) cexAnnotated.nodes.length 1 3 []
      = [[1, 3], [1, 2, 3]] := rfl
  have hK : (0:ℝ) < 6371000 * Real.pi / 180 := by positivity
  have hc : (0:ℝ) < ((1/2:ℚ):ℝ) + 1/1000000 := by
    push_cast
    norm_num
  have e13 : haversine_meters ((0:ℚ):ℝ) ((0:ℚ):ℝ) ((2:ℚ):ℝ) ((0:ℚ):ℝ)
      = 2 * (6371000 * Real.pi / 180) := by
    push_cast
    rw [haversine_equator 0 2 (by norm_num) (by norm_num)]
    ring
  have e12 : haversine_meters ((0:ℚ):ℝ) ((0:ℚ):ℝ) ((3:ℚ):ℝ) ((0:ℚ):ℝ)
      = 3 * (6371000 * Real.pi / 180) := by
    push_cast
    rw [haversine_equator 0 3 (by norm_num) (by norm_num)]
    ring
  have e23 : haversine_meters ((3:ℚ):ℝ) ((0:ℚ):ℝ) ((2:ℚ):ℝ) ((0:ℚ):ℝ)
      = 1 * (6371000 * Real.pi / 180) := by
    push_cast
    rw [haversine_comm, haversine_equator 2 3 (by norm_num) (by norm_num)]
    ring
  have hw13 : pathWeight cexAnnotated (fun dt => dt.safety_cost.getD 1) [1, 3]
      = haversine_meters ((0:ℚ):ℝ) ((0:ℚ):ℝ) ((2:ℚ):ℝ) ((0:ℚ):ℝ)
        / (((1/2:ℚ):ℝ) + 1/1000000) + 0 := rfl
  have hw123 : pathWeight cexAnnotated (fun dt => dt.safety_cost.getD 1) [1, 2, 3]
      = haversine_meters ((0:ℚ):ℝ) ((0:ℚ):ℝ) ((3:ℚ):ℝ) ((0:ℚ):ℝ)
          / (((1/2:ℚ):ℝ) + 1/1000000)
        + (haversine_meters ((3:ℚ):ℝ) ((0:ℚ):ℝ) ((2:ℚ):ℝ) ((0:ℚ):ℝ)
          / (((1/2:ℚ):ℝ) + 1/1000000) + 0) := rfl
  have hnotS : ¬ (pathWeight cexAnnotated (fun dt => dt.safety_cost.getD 1) [1, 2, 3]
      < pathWeight cexAnnotated (fun dt => dt.safety_cost.getD 1) [1, 3]) := by
    rw [hw123, hw13, e12, e23, e13, not_lt, add_zero, add_zero, div_add_div_same,
      div_le_div_iff_of_pos_right hc]
    linarith
  have hspS : shortestPathBy cexAnnotated (fun dt => dt.safety_cost.getD 1) 1 3
      = some [1, 3] := by
    unfold shortestPathBy
    rw [hcand]
    unfold argminPath
    simp only [List.foldl_cons, List.foldl_nil]
    rw [if_neg hnotS]
  have hw13F : pathWeight cexAnnotated (fun dt => dt.length.getD 1) [1, 3]
      = (100:ℝ) + 0 := rfl
  have hw123F : pathWeight cexAnnotated (fun dt => dt.length.getD 1) [1, 2, 3]
      = (10:ℝ) + ((10:ℝ) + 0) := rfl
  have hltF : pathWeight cexAnnotated (fun dt => dt.length.getD 1) [1, 2, 3]
      < pathWeight cexAnnotated (fun dt => dt.length.getD 1) [1, 3] := by
    rw [hw123F, hw13F]
    norm_num
  have hspF : shortestPathBy cexAnnotated (fun dt => dt.length.getD 1) 1 3
      = some [1, 2, 3] := by
    unfold shortestPathBy
    rw [hcand]
    unfold argminPath
    simp only [List.foldl_cons, List.foldl_nil]
    rw [if_pos hltF]
  have ho : nearest_node cexAnnotated 0 0 = some 1 := by
    norm_num [nearest_node, sqDist, cexAnnotated]
  have hd : nearest_node cexAnnotated 2 0 = some 3 := by
    norm_num [nearest_node, sqDist, cexAnnotated]
  have hpcS : pathCoords cexAnnotated [1, 3] = some [((0:ℚ), (0:ℚ)), (2, 0)] := rfl
  have hpcF : pathCoords cexAnnotated [1, 2, 3]
      = some [((0:ℚ), (0:ℚ)), (3, 0), (2, 0)] := rfl
  have hS : safest_route_on_graph cexAnnotated (0, 0) (2, 0)
      = some [((0:ℚ), (0:ℚ)), (2, 0)] := by
    simp only [safest_route_on_graph, ho, hd, hspS, hpcS]
  have hF : fastest_route_on_graph cexAnnotated (0, 0) (2, 0)
      = some [((0:ℚ), (0:ℚ)), (3, 0), (2, 0)] := by
    simp only [fastest_route_on_graph, ho, hd, hspF, hpcF]
  constructor
  · rw [hann]
    show Except.ok (cexAnnotated.edges.map (fun e => e.data.safety),
        safest_route_on_graph cexAnnotated (0, 0) (2, 0),
        fastest_route_on_graph cexAnnotated (0, 0) (2, 0)) = _
    rw [hS, hF]
    rfl
  · simp

end SafePath
